import Mathlib

/-!
Shallow embedding of the numerical core of the proplot repository
(`proplot/colortools.py` and `proplot/axes/plot.py`): the discrete
normalizers (`BinNorm`, `LinearSegmentedNorm`, `MidpointNorm`), colormap
merging (`merge_cmaps`), color clipping (`clip_colors`), the colormap
name dictionary (`_CmapDict`) and the 1-D argument standardization of the
plotting wrappers.  Machine floats are embedded as exact rationals; numpy
NaN/inf values produced by division are embedded as `Option.none`.
-/

namespace Proplot

/-- Python `np.searchsorted(xs, v, side="left")`.  For the sorted arrays this code
applies it to, the insertion index equals the number of entries strictly
below `v`, which is how we embed it. -/
def searchsortedL (xs : List ℚ) (v : ℚ) : Nat :=
  xs.countP (fun x => decide (x < v))

/-- The monotonicity test `((levels[1:]-levels[:-1])<=0).any()` (negated):
all successive differences are strictly positive. -/
def monotonicOK (xs : List ℚ) : Bool :=
  (xs.zip xs.tail).all (fun p => decide (p.1 < p.2))

/-- Python `np.min` of a nonempty array (0 for the empty array, unused). -/
def npMin (xs : List ℚ) : ℚ :=
  match xs with
  | [] => 0
  | a :: rest => rest.foldl min a

/-- Python `np.max` of a nonempty array (0 for the empty array, unused). -/
def npMax (xs : List ℚ) : ℚ :=
  match xs with
  | [] => 0
  | a :: rest => rest.foldl max a

/-! Embedding of `BinNorm` from `proplot/colortools.py`. -/

/-- Elementwise float division as numpy performs it inside
`(x_m - x_m.min())/(x_m.max() - x_m.min())`: a zero denominator produces
inf or NaN, which the subsequent `np.isfinite` filter rejects; we embed
such non-finite results as `none`. -/
def qdiv? (a b : ℚ) : Option ℚ :=
  if b = 0 then none else some (a / b)

/-- The first line of `BinNorm.__init__`: `extend = extend or "both"`.
A falsy value (`None` or the empty string) is replaced by `"both"`. -/
def effExtend (extend : Option String) : String :=
  match extend with
  | none => "both"
  | some s => if s = "" then "both" else s

/-- Python `extend in ("both","min","max","neither")`. -/
def validExtend (e : String) : Bool :=
  e = "both" || e = "min" || e = "max" || e = "neither"

/-- The state stored by `BinNorm.__init__`. -/
structure BinNormState where
  norm : ℚ → ℚ
  x_b : List ℚ
  y : List ℚ
  boundaries : List ℚ
  vmin : ℚ
  vmax : ℚ
  clip : Bool
  N : ℕ

/-- The state computed by the body of `BinNorm.__init__` once validation
has passed: the level centers are rescaled to 0-1, offset for the
out-of-bounds colors, filtered by `np.isfinite`, and framed by 0 and 1. -/
def binNormState (levels : List ℚ) (norm : ℚ → ℚ) (clip : Bool) (step : ℚ)
    (extendE : String) : BinNormState :=
  let x_b := levels.map norm
  let x_m := (x_b.zip x_b.tail).map (fun p => (p.1 + p.2) / 2)
  let lo := npMin x_m
  let hi := npMax x_m
  let yRaw := x_m.map (fun m => qdiv? (m - lo) (hi - lo))
  let eps := step / (levels.length : ℚ)
  let offset : ℚ := if extendE = "min" ∨ extendE = "both" then eps else 0
  let scale : ℚ :=
    1 - (if extendE = "min" ∨ extendE = "both" then eps else 0)
      - (if extendE = "max" ∨ extendE = "both" then eps else 0)
  let yFinite := yRaw.filterMap id
  let yTable := 0 :: (yFinite.map (fun v => offset + scale * v) ++ [1])
  { norm := norm, x_b := x_b, y := yTable, boundaries := levels,
    vmin := npMin levels, vmax := npMax levels, clip := clip,
    N := levels.length }

/-- Validation of `BinNorm.__init__` after the `extend = extend or "both"`
coercion. -/
def binNormInitCore (levels : List ℚ) (norm : ℚ → ℚ) (clip : Bool) (step : ℚ)
    (extendE : String) : Except String BinNormState :=
  if levels.length ≤ 1 then
    .error "Need at least two levels."
  else if monotonicOK levels = false then
    .error "Levels passed to Normalize() must be monotonically increasing."
  else if validExtend extendE = false then
    .error "Unknown extend option. Choose from min, max, both, neither."
  else
    .ok (binNormState levels norm clip step extendE)

/-- Python `BinNorm.__init__(levels, norm, clip, step, extend)`.  The `norm`
argument models the optional callable (the default `None` becomes the
identity at the call site). -/
def binNormInit (levels : List ℚ) (norm : ℚ → ℚ) (clip : Bool) (step : ℚ)
    (extend : Option String) : Except String BinNormState :=
  binNormInitCore levels norm clip step (effExtend extend)

/-- Python `BinNorm.__call__(xq)`:
`yq = self._y[np.searchsorted(self._x_b, self._norm(xq))]`.
An out-of-range lookup table index (numpy `IndexError`) is `none`. -/
def binNormCall (st : BinNormState) (xq : ℚ) : Option ℚ :=
  st.y.get? (searchsortedL st.x_b (st.norm xq))

def exceptIsOk {ε α : Type} : Except ε α → Bool
  | .ok _ => true
  | .error _ => false

/-! Piecewise-linear interpolation shared by `LinearSegmentedNorm.__call__`,
`LinearSegmentedNorm.inverse` and `MidpointNorm.__call__`/`inverse`, whose
Python bodies are identical up to the arrays involved:
`ind = np.searchsorted(x, q); ind[ind==0] = 1; ind[ind==len(x)] = len(x)-1;
distance = (q - x[ind-1])/(x[ind] - x[ind-1]);
out = distance*(y[ind] - y[ind-1]) + y[ind-1]`. -/

/-- The clamped segment index
`ind = np.searchsorted(x, q); ind[ind==0] = 1; ind[ind==len(x)] = len(x)-1`. -/
def npClampInd (x : List ℚ) (q : ℚ) : ℕ :=
  if searchsortedL x q = 0 then 1
  else if searchsortedL x q = x.length then x.length - 1
  else searchsortedL x q

def npInterpSegments (x y : List ℚ) (q : ℚ) : ℚ :=
  (q - x.getD (npClampInd x q - 1) 0) /
      (x.getD (npClampInd x q) 0 - x.getD (npClampInd x q - 1) 0) *
      (y.getD (npClampInd x q) 0 - y.getD (npClampInd x q - 1) 0) +
    y.getD (npClampInd x q - 1) 0

/-- Python `MidpointNorm.__call__(xq)` with numeric `vmin`, `midpoint`, `vmax`:
raises unless `vmin < midpoint < vmax`, then interpolates along
`x = [vmin, midpoint, vmax]`, `y = [0, 0.5, 1]`. -/
def midpointCall (vmin midpoint vmax : ℚ) (xq : ℚ) : Except String ℚ :=
  if midpoint ≤ vmin ∨ vmax ≤ midpoint then
    .error "Midpoint outside of vmin and vmax."
  else
    .ok (npInterpSegments [vmin, midpoint, vmax] [0, 1/2, 1] xq)

/-! Embedding of `LinearSegmentedNorm` from `proplot/colortools.py`: `self._x` is the
level array, `self._y = np.linspace(0, 1, len(levels))`. -/

/-- Python `np.linspace(0, 1, n)`: entry `i` is `i/(n-1)`. -/
def linspace01 (n : ℕ) : List ℚ :=
  (List.range n).map (fun i : ℕ => (i : ℚ) / ((n : ℚ) - 1))

/-- Python `LinearSegmentedNorm.__call__(xq)`. -/
def linSegCall (levels : List ℚ) (xq : ℚ) : ℚ :=
  npInterpSegments levels (linspace01 levels.length) xq

/-- Python `LinearSegmentedNorm.inverse(yq)`: the same interpolation with the
roles of `self._x` and `self._y` exchanged. -/
def linSegInverse (levels : List ℚ) (yq : ℚ) : ℚ :=
  npInterpSegments (linspace01 levels.length) levels yq

/-! Embedding of `merge_cmaps` from `proplot/colortools.py`.  Colormap instances pass
through `colormap(cmap, N=None)` unchanged, so we model the inputs as
already-constructed colormap objects.  The segment-data merge for
`LinearSegmentedColormap` inputs is outside the claims and is marked by a
dedicated outcome constructor. -/

inductive PyCmap where
  | listed (name : String) (colors : List (ℚ × ℚ × ℚ))
  | segmented (name : String)
deriving DecidableEq

def PyCmap.isListed : PyCmap → Bool
  | .listed _ _ => true
  | .segmented _ => false

def PyCmap.colorsOf : PyCmap → List (ℚ × ℚ × ℚ)
  | .listed _ cs => cs
  | .segmented _ => []

inductive RatiosArg where
  | noneArg
  | num (q : ℚ)
  | listArg (l : List ℚ)
deriving DecidableEq

/-- Python `ratios = ratios or 1`: falsy values (`None`, `0`, `[]`) become `1`. -/
def ratiosOrOne : RatiosArg → RatiosArg
  | .noneArg => .num 1
  | .num q => if q = 0 then .num 1 else .num q
  | .listArg l => if l = [] then .num 1 else .listArg l

/-- Python `if isinstance(ratios, Number): ratios = [1]*len(_cmaps)`. -/
def ratiosList (r : RatiosArg) (n : ℕ) : List ℚ :=
  match r with
  | .num _ => List.replicate n 1
  | .listArg l => l
  | .noneArg => []

/-- The Python expression `ratios == 1` where `ratios` is a built-in list
and `1` a scalar: comparison of a list with a number is always `False`
(no elementwise broadcasting), so `np.all(ratios==1)` is `np.all(False)`,
i.e. `False`. -/
def pyListEqScalar (_l : List ℚ) (_q : ℚ) : Bool :=
  false

inductive MergeResult where
  | ok (c : PyCmap)
  | err (msg : String)
  | segmentedMerge
deriving DecidableEq

/-- Python `merge_cmaps(*_cmaps, name, ratios)` restricted to already-built
colormap objects. -/
def mergeCmaps (cmaps : List PyCmap) (name : String) (ratios : RatiosArg) :
    MergeResult :=
  if cmaps.length ≤ 1 then
    .err "Need two or more input cmaps."
  else
    let ratios2 := ratiosList (ratiosOrOne ratios) cmaps.length
    if cmaps.all PyCmap.isListed then
      if pyListEqScalar ratios2 1 = false then
        .err "Cannot assign different ratios when mering ListedColormaps."
      else
        .ok (.listed name (cmaps.flatMap PyCmap.colorsOf))
    else if cmaps.all (fun c => !c.isListed) then
      .segmentedMerge
    else
      .err "All colormaps should be of the same type (Listed or LinearSegmented)."

/-! Embedding of `_auto_levels_locator` from `proplot/axes/plot.py`.  Only the head of
the function matters for the claim: the iterable-`N` early return, the
norm construction, and the positive/negative compatibility check. -/

inductive NArg where
  | noneN
  | scalarN (n : ℕ)
  | iterN (l : List ℚ)
deriving DecidableEq

inductive LocOutcome where
  | ret (levels : List ℚ) (locator : List ℚ)
  | err (msg : String)
  | heuristics
deriving DecidableEq

/-- The head of `_auto_levels_locator(*args, N, norm, ..., positive,
negative, ...)`.  `normStep` abstracts the outcome of
`constructor.Norm(norm or "linear", **norm_kw)` (that constructor lives
outside these sources; only whether it raises matters here).  Everything
past the positive/negative check is summarized by `heuristics`. -/
def autoLevelsLocatorHead (N : NArg) (positive negative : Bool)
    (normStep : Except String Unit) : LocOutcome :=
  match N with
  | .iterN l => .ret l l
  | _ =>
    match normStep with
    | .error e => .err e
    | .ok _ =>
      if positive && negative then
        .err "Incompatible options: positive=True and negative=True."
      else
        .heuristics

/-! Embedding of `standardize_1d` from `proplot/axes/plot.py`, restricted to plain 1-D
numeric arrays (each positional argument a `List ℚ`). -/

/-- Substring test (Python `pat in name`). -/
def containsSeq (pat : List Char) : List Char → Bool
  | [] => pat.isPrefixOf ([] : List Char)
  | c :: rest => pat.isPrefixOf (c :: rest) || containsSeq pat rest

/-- Python `np.arange(n)` as rationals. -/
def arangeQ (n : ℕ) : List ℚ :=
  (List.range n).map (fun i : ℕ => (i : ℚ))

/-- Python `_axis_labels_title(data, axis)` for a 1-D ndarray: since
`data.ndim = 1`, the labels are `np.arange(data.shape[0])` when
`axis = 0` and the data itself when `axis = 1`. -/
def axisLabelsTitle1d (y : List ℚ) (axis : ℕ) : List ℚ :=
  if axis < 1 then arangeQ y.length else y

/-- The body of `standardize_1d` after the positional-argument dispatch:
`x?` is the x coordinate (if given), `y` the first y, `rest` the remaining
positional arguments.  Returns the positional arguments
`(x, *ys, *args)` handed to the wrapped method. -/
def standardize1dCont (name : String) (meansMedians : Bool)
    (x? : Option (List ℚ)) (y : List ℚ) (rest : List (List ℚ)) :
    Except String (Option (List ℚ) × List (List ℚ)) :=
  let fb := decide (1 ≤ rest.length) && containsSeq "fill_between".toList name.toList
  let ys : List (List ℚ) := if fb then [y, rest.headD []] else [y]
  let rest2 := if fb then rest.tail else rest
  let x : List ℚ :=
    match x? with
    | some x => x
    | none =>
      let axis : ℕ :=
        if name = "hist" || name = "boxplot" || name = "violinplot" || meansMedians
        then 1 else 0
      axisLabelsTitle1d y axis
  .ok (some x, ys ++ rest2)

/-- Python `standardize_1d(self, func, *args, **kwargs)`: the positional-argument
dispatch.  No positional data calls the wrapped method unchanged; more
than four positional arguments raise `ValueError`. -/
def standardize1d (name : String) (meansMedians : Bool)
    (args : List (List ℚ)) : Except String (Option (List ℚ) × List (List ℚ)) :=
  match args with
  | [] => .ok (none, [])
  | [y] => standardize1dCont name meansMedians none y []
  | x :: y :: rest =>
    if args.length ≤ 4 then
      standardize1dCont name meansMedians (some x) y rest
    else
      .error "takes up to 4 positional arguments"

/-! Embedding of `_CmapDict` from `proplot/colortools.py`.  Keys are modelled as
`List Char` (with `lowerKey` for `str.lower()`), values as an inductive
with an optional `reversed()` method.  The module-level `_cmap_mirrors`
table is a parameter. -/

inductive CVal where
  | base (n : ℕ) (hasRev : Bool)
  | reversedOf (v : CVal)
deriving DecidableEq

/-- Python `value.reversed()`: available on every matplotlib colormap object that
defines it; a value without the method raises `AttributeError` (`none`). -/
def pyReversed : CVal → Option CVal
  | .base n h => if h then some (.reversedOf (.base n h)) else none
  | .reversedOf v => some (.reversedOf (.reversedOf v))

def lowerKey (s : List Char) : List Char :=
  s.map Char.toLower

/-- Python `key[-2:] == "_r"` (for strings shorter than two characters the
slice is the whole string, which cannot equal a two-character suffix). -/
def endsUr (s : List Char) : Bool :=
  decide (2 ≤ s.length) && decide (s.drop (s.length - 2) = ['_', 'r'])

/-- Python `key[:-2]`. -/
def stripUr (s : List Char) : List Char :=
  s.take (s.length - 2)

/-- Dictionary lookup (`dict.__getitem__` returning an option). -/
def dlookup : List (List Char × CVal) → List Char → Option CVal
  | [], _ => none
  | (k, v) :: rest, key => if k = key then some v else dlookup rest key

/-- The `for mirror in _cmap_mirrors` loop: the last matching pair wins;
`mirror.index(key)` selects the other component. -/
def mirrorKey (mirrors : List (List Char × List Char)) (key : List Char) :
    List Char :=
  mirrors.foldl
    (fun acc m => if m.1 = key then m.2 else if m.2 = key then m.1 else acc) key

/-- Python `_CmapDict._sanitize_key` for a string key. -/
def sanitizeKey (mirrors : List (List Char × List Char))
    (d : List (List Char × CVal)) (s : List Char) : List Char :=
  let key := lowerKey s
  let key1 := if endsUr key then stripUr key else key
  let reverse1 := endsUr key
  if (dlookup d key1).isSome then
    (if reverse1 then key1 ++ ['_', 'r'] else key1)
  else
    let km := mirrorKey mirrors key1
    if (dlookup d km).isSome then
      (if !reverse1 then km ++ ['_', 'r'] else km)
    else
      (if reverse1 then key1 ++ ['_', 'r'] else key1)

/-- Python `_CmapDict._getitem` (no sanitization): strip a `_r` suffix, look the
key up, and reverse the value if the suffix was present. -/
def getItemRaw (d : List (List Char × CVal)) (key : List Char) :
    Except String CVal :=
  let key1 := if endsUr key then stripUr key else key
  match dlookup d key1 with
  | none => .error "KeyError"
  | some v =>
    if endsUr key then
      match pyReversed v with
      | some w => .ok w
      | none => .error "KeyError: dictionary value must have reversed method"
    else
      .ok v

/-- Python `_CmapDict.__getitem__` for a string key. -/
def cmapDictGet (mirrors : List (List Char × List Char))
    (d : List (List Char × CVal)) (s : List Char) : Except String CVal :=
  getItemRaw d (sanitizeKey mirrors d s)

/-- A dictionary key as Python sees it: a string or something else. -/
inductive PyKey where
  | str (s : List Char)
  | nonStr (n : ℕ)
deriving DecidableEq

/-- Insertion with Python dict semantics: overwrite in place, else append. -/
def dinsert (d : List (List Char × CVal)) (k : List Char) (v : CVal) :
    List (List Char × CVal) :=
  if (dlookup d k).isSome then
    d.map (fun p => if p.1 = k then (k, v) else p)
  else
    d ++ [(k, v)]

/-- The `for key,value in kwargs.items()` loop of `_CmapDict.__init__`:
non-string keys raise, keys with a literal `_r` suffix are skipped,
everything else is stored lowercased. -/
def cmapDictInitGo (acc : List (List Char × CVal)) :
    List (PyKey × CVal) → Except String (List (List Char × CVal))
  | [] => .ok acc
  | (.nonStr _, _) :: _ => .error "KeyError: Invalid key. Must be string."
  | (.str s, v) :: rest =>
    if endsUr s then cmapDictInitGo acc rest
    else cmapDictInitGo (dinsert acc (lowerKey s) v) rest

def cmapDictInit (kvs : List (PyKey × CVal)) :
    Except String (List (List Char × CVal)) :=
  cmapDictInitGo [] kvs

/-- Python `_CmapDict.__setitem__`. -/
def cmapDictSet (d : List (List Char × CVal)) (k : PyKey) (v : CVal) :
    Except String (List (List Char × CVal)) :=
  match k with
  | .nonStr _ => .error "KeyError: Invalid key. Must be string."
  | .str s => .ok (dinsert d (lowerKey s) v)

/-- Every stored key is a lowercase string. -/
def lowercaseKeys (d : List (List Char × CVal)) : Prop :=
  ∀ p ∈ d, lowerKey p.1 = p.1

/-! Embedding of `clip_colors` from `proplot/colortools.py`: elementwise on the n-by-3
array, out-of-range channels are masked to `gray` or clipped to 0/1. -/

/-- One channel of `clip_colors`: `colors[under|over] = gray` in mask mode,
`colors[under] = 0; colors[over] = 1` otherwise. -/
def clipChannel (mask : Bool) (gray v : ℚ) : ℚ :=
  if mask then
    (if v < 0 ∨ 1 < v then gray else v)
  else
    (if v < 0 then 0 else if 1 < v then 1 else v)

def clip_colors (colors : List (ℚ × ℚ × ℚ)) (mask : Bool) (gray : ℚ) :
    List (ℚ × ℚ × ℚ) :=
  colors.map (fun c =>
    (clipChannel mask gray c.1, clipChannel mask gray c.2.1,
      clipChannel mask gray c.2.2))

theorem monotonicOK_iff_chain (xs : List ℚ) :
    monotonicOK xs = true ↔ List.Chain' (· < ·) xs := by
  unfold monotonicOK
  induction xs with
  | nil => simp
  | cons a rest ih =>
    cases rest with
    | nil => simp
    | cons b rest' =>
      simp only [List.tail_cons, List.zip_cons_cons, List.all_cons, Bool.and_eq_true,
        decide_eq_true_eq, List.chain'_cons]
      constructor
      · rintro ⟨h1, h2⟩
        exact ⟨h1, ih.mp h2⟩
      · rintro ⟨h1, h2⟩
        exact ⟨h1, ih.mpr h2⟩

theorem monotonicOK_iff_pairwise (xs : List ℚ) :
    monotonicOK xs = true ↔ xs.Pairwise (· < ·) := by
  rw [monotonicOK_iff_chain, List.chain'_iff_pairwise]

theorem foldl_min_le_init (l : List ℚ) (a : ℚ) : l.foldl min a ≤ a := by
  induction l generalizing a with
  | nil => simp
  | cons b rest ih =>
    simpa using le_trans (ih (min a b)) (min_le_left a b)

theorem foldl_min_le_mem (l : List ℚ) (a x : ℚ) (hx : x ∈ l) : l.foldl min a ≤ x := by
  induction l generalizing a with
  | nil => cases hx
  | cons b rest ih =>
    rcases List.mem_cons.mp hx with h | h
    · subst h
      exact le_trans (foldl_min_le_init rest (min a x)) (min_le_right a x)
    · exact ih (min a b) h

theorem foldl_min_mem (l : List ℚ) (a : ℚ) : l.foldl min a = a ∨ l.foldl min a ∈ l := by
  induction l generalizing a with
  | nil => simp
  | cons b rest ih =>
    rcases ih (min a b) with h | h
    · rcases min_cases a b with ⟨hm, _⟩ | ⟨hm, _⟩
      · left; rw [List.foldl_cons, h, hm]
      · right; rw [List.foldl_cons, h, hm]; exact List.mem_cons_self b rest
    · right; exact List.mem_cons_of_mem _ h

theorem le_foldl_max_init (l : List ℚ) (a : ℚ) : a ≤ l.foldl max a := by
  induction l generalizing a with
  | nil => simp
  | cons b rest ih =>
    simpa using le_trans (le_max_left a b) (ih (max a b))

theorem le_foldl_max_mem (l : List ℚ) (a x : ℚ) (hx : x ∈ l) : x ≤ l.foldl max a := by
  induction l generalizing a with
  | nil => cases hx
  | cons b rest ih =>
    rcases List.mem_cons.mp hx with h | h
    · subst h
      exact le_trans (le_max_right a x) (le_foldl_max_init rest (max a x))
    · exact ih (max a b) h

theorem foldl_max_mem (l : List ℚ) (a : ℚ) : l.foldl max a = a ∨ l.foldl max a ∈ l := by
  induction l generalizing a with
  | nil => simp
  | cons b rest ih =>
    rcases ih (max a b) with h | h
    · rcases max_cases a b with ⟨hm, _⟩ | ⟨hm, _⟩
      · left; rw [List.foldl_cons, h, hm]
      · right; rw [List.foldl_cons, h, hm]; exact List.mem_cons_self b rest
    · right; exact List.mem_cons_of_mem _ h

theorem npMin_mem (xs : List ℚ) (h : xs ≠ []) : npMin xs ∈ xs := by
  cases xs with
  | nil => exact absurd rfl h
  | cons a rest =>
    show rest.foldl min a ∈ a :: rest
    rcases foldl_min_mem rest a with h | h
    · rw [h]; exact List.mem_cons_self a rest
    · exact List.mem_cons_of_mem _ h

theorem npMin_le (xs : List ℚ) (x : ℚ) (hx : x ∈ xs) : npMin xs ≤ x := by
  cases xs with
  | nil => cases hx
  | cons a rest =>
    show rest.foldl min a ≤ x
    rcases List.mem_cons.mp hx with h | h
    · subst h; exact foldl_min_le_init rest x
    · exact foldl_min_le_mem rest a x h

theorem npMax_mem (xs : List ℚ) (h : xs ≠ []) : npMax xs ∈ xs := by
  cases xs with
  | nil => exact absurd rfl h
  | cons a rest =>
    show rest.foldl max a ∈ a :: rest
    rcases foldl_max_mem rest a with h | h
    · rw [h]; exact List.mem_cons_self a rest
    · exact List.mem_cons_of_mem _ h

theorem le_npMax (xs : List ℚ) (x : ℚ) (hx : x ∈ xs) : x ≤ npMax xs := by
  cases xs with
  | nil => cases hx
  | cons a rest =>
    show x ≤ rest.foldl max a
    rcases List.mem_cons.mp hx with h | h
    · subst h; exact le_foldl_max_init rest x
    · exact le_foldl_max_mem rest a x h

theorem searchsortedL_le_length (xs : List ℚ) (v : ℚ) :
    searchsortedL xs v ≤ xs.length :=
  List.countP_le_length _

theorem getD_lt_of_lt_searchsortedL (xs : List ℚ) (hs : xs.Pairwise (· < ·)) (v : ℚ)
    (j : ℕ) (hj : j < searchsortedL xs v) : xs.getD j 0 < v := by
  induction xs generalizing j with
  | nil => simp [searchsortedL] at hj
  | cons a rest ih =>
    have hpw := List.pairwise_cons.mp hs
    by_cases ha : a < v
    · cases j with
      | zero => simpa using ha
      | succ k =>
        rw [List.getD_cons_succ]
        apply ih hpw.2
        have : searchsortedL (a :: rest) v = searchsortedL rest v + 1 := by
          simp [searchsortedL, List.countP_cons, ha]
        omega
    · exfalso
      have hzero : searchsortedL (a :: rest) v = 0 := by
        simp only [searchsortedL, List.countP_cons]
        have hrest : rest.countP (fun x => decide (x < v)) = 0 :=
          List.countP_eq_zero.mpr (by
            intro x hx
            simp only [decide_eq_true_eq]
            exact fun hlt => ha (lt_trans (hpw.1 x hx) hlt))
        simp [hrest, ha]
      omega

theorem not_getD_lt_of_searchsortedL_le (xs : List ℚ) (hs : xs.Pairwise (· < ·)) (v : ℚ)
    (j : ℕ) (h1 : searchsortedL xs v ≤ j) (h2 : j < xs.length) : ¬ xs.getD j 0 < v := by
  induction xs generalizing j with
  | nil => simp at h2
  | cons a rest ih =>
    have hpw := List.pairwise_cons.mp hs
    by_cases ha : a < v
    · have hc : searchsortedL (a :: rest) v = searchsortedL rest v + 1 := by
        simp [searchsortedL, List.countP_cons, ha]
      cases j with
      | zero => omega
      | succ k =>
        rw [List.getD_cons_succ]
        exact ih hpw.2 k (by omega) (by simpa using h2)
    · cases j with
      | zero => simpa using ha
      | succ k =>
        rw [List.getD_cons_succ]
        have hk : k < rest.length := by simpa using h2
        have hmem : rest.getD k 0 ∈ rest := by
          rw [List.getD_eq_getElem rest 0 hk]
          exact List.getElem_mem hk
        exact fun hlt => ha (lt_trans (hpw.1 _ hmem) hlt)

theorem searchsortedL_eq (xs : List ℚ) (hs : xs.Pairwise (· < ·)) (v : ℚ) (i : ℕ)
    (hi : i ≤ xs.length)
    (hlow : ∀ j, j < i → xs.getD j 0 < v)
    (hhigh : ∀ j, i ≤ j → j < xs.length → ¬ xs.getD j 0 < v) :
    searchsortedL xs v = i := by
  rcases Nat.lt_trichotomy (searchsortedL xs v) i with h | h | h
  · exact absurd (hlow _ h)
      (not_getD_lt_of_searchsortedL_le xs hs v _ (le_refl _) (by omega))
  · exact h
  · exact absurd (getD_lt_of_lt_searchsortedL xs hs v i h)
      (hhigh i (le_refl i) (by
        have := searchsortedL_le_length xs v
        omega))

theorem validExtend_iff (e : String) :
    validExtend e = true ↔ e ∈ (["both", "min", "max", "neither"] : List String) := by
  simp [validExtend]
  tauto

/-- C1 counterexample: `BinNorm.__init__` is called with `extend=None`,
which is not one of the four extend options, yet construction succeeds,
because the first line `extend = extend or "both"` silently replaces any
falsy `extend` by `"both"`.  This refutes the claimed "if and only if". -/
theorem binNormInit_extend_none_counterexample :
    exceptIsOk (binNormInit [0, 1] (fun x => x) false 1 none) = true ∧
      (none : Option String) ∉ ([some "both", some "min", some "max", some "neither"] :
        List (Option String)) := by
  refine ⟨rfl, ?_⟩
  simp

/-- C1 (amended): `BinNorm.__init__` raises `ValueError` iff the levels
array has fewer than two elements, or the successive differences are not
all strictly positive, or the *effective* extend option (after the falsy
coercion `extend = extend or "both"`) is not one of "both", "min", "max",
"neither"; on success the instance has boundaries equal to the levels
array, `vmin` the smallest level, `vmax` the largest level, and `N` the
number of levels. -/
theorem binNormInit_validates (levels : List ℚ) (norm : ℚ → ℚ) (clip : Bool)
    (step : ℚ) (extend : Option String) :
    (exceptIsOk (binNormInit levels norm clip step extend) = false ↔
      levels.length < 2 ∨ ¬ levels.Pairwise (· < ·) ∨
        effExtend extend ∉ (["both", "min", "max", "neither"] : List String)) ∧
    (∀ st, binNormInit levels norm clip step extend = .ok st →
      st.boundaries = levels ∧ st.vmin ∈ levels ∧ (∀ l ∈ levels, st.vmin ≤ l) ∧
        st.vmax ∈ levels ∧ (∀ l ∈ levels, l ≤ st.vmax) ∧ st.N = levels.length) := by
  constructor
  · show exceptIsOk (binNormInitCore levels norm clip step (effExtend extend)) = false ↔ _
    unfold binNormInitCore
    split_ifs with h1 h2 h3
    · constructor
      · intro _
        exact Or.inl (by omega)
      · intro _
        rfl
    · constructor
      · intro _
        refine Or.inr (Or.inl fun hp => ?_)
        rw [(monotonicOK_iff_pairwise levels).mpr hp] at h2
        cases h2
      · intro _
        rfl
    · constructor
      · intro _
        refine Or.inr (Or.inr fun hm => ?_)
        rw [(validExtend_iff _).mpr hm] at h3
        cases h3
      · intro _
        rfl
    · simp only [exceptIsOk, Bool.true_eq_false, false_iff]
      push_neg
      refine ⟨by omega, ?_, ?_⟩
      · apply (monotonicOK_iff_pairwise levels).mp
        exact eq_true_of_ne_false h2
      · exact (validExtend_iff _).mp (eq_true_of_ne_false h3)
  · intro st hst
    unfold binNormInit binNormInitCore at hst
    split_ifs at hst
    have hne : levels ≠ [] := by
      intro h
      subst h
      simp_all
    injection hst with hst
    subst hst
    refine ⟨rfl, npMin_mem levels hne, fun l hl => npMin_le levels l hl,
      npMax_mem levels hne, fun l hl => le_npMax levels l hl, rfl⟩

/-- C1 witness: the amended theorem applied to the concrete construction
`BinNorm([0, 1, 3], extend="both")`. -/
theorem binNormInit_validates_witness :
    (binNormState [0, 1, 3] (fun x => x) false 1 "both").boundaries = [0, 1, 3] ∧
      (binNormState [0, 1, 3] (fun x => x) false 1 "both").vmin ∈ ([0, 1, 3] : List ℚ) ∧
      (∀ l ∈ ([0, 1, 3] : List ℚ),
        (binNormState [0, 1, 3] (fun x => x) false 1 "both").vmin ≤ l) ∧
      (binNormState [0, 1, 3] (fun x => x) false 1 "both").vmax ∈ ([0, 1, 3] : List ℚ) ∧
      (∀ l ∈ ([0, 1, 3] : List ℚ),
        l ≤ (binNormState [0, 1, 3] (fun x => x) false 1 "both").vmax) ∧
      (binNormState [0, 1, 3] (fun x => x) false 1 "both").N =
        ([0, 1, 3] : List ℚ).length :=
  (binNormInit_validates [0, 1, 3] (fun x => x) false 1 (some "both")).2 _ rfl

/-- C2: evaluation of `BinNorm` at the failing input.  With exactly two
levels the single level center normalizes to `0/0` (NaN), the
`np.isfinite` filter drops it, and the lookup table `_y` has length 2
instead of the intended `N + 1 = 3`; a query strictly above the largest
level then indexes position 2 of a length-2 array, an `IndexError`
(embedded as `none`) instead of the claimed value 1. -/
theorem binNormCall_two_levels_above_max :
    ∃ st, binNormInit [0, 1] (fun x => x) false 1 (some "neither") = .ok st ∧
      st.y = [0, 1] ∧ binNormCall st 2 = none := by
  refine ⟨binNormState [0, 1] (fun x => x) false 1 "neither", ?_, ?_, ?_⟩
  · unfold binNormInit binNormInitCore effExtend
    norm_num [monotonicOK, validExtend]
    simp
  · norm_num [binNormState, qdiv?, npMin, npMax]
  · norm_num [binNormCall, binNormState, searchsortedL, qdiv?, npMin, npMax]

theorem npInterpSegments_eval (x y : List ℚ) (q : ℚ) (i : ℕ)
    (h : npClampInd x q = i) :
    npInterpSegments x y q =
      (q - x.getD (i - 1) 0) / (x.getD i 0 - x.getD (i - 1) 0) *
          (y.getD i 0 - y.getD (i - 1) 0) + y.getD (i - 1) 0 := by
  rw [npInterpSegments, h]

/-- C4: `MidpointNorm.__call__` raises `ValueError` iff `vmin >= midpoint`
or `vmax <= midpoint`; when it does not raise, it maps `vmin` to 0,
`midpoint` to 0.5 and `vmax` to 1. -/
theorem midpointNorm_spec (vmin midpoint vmax : ℚ) :
    (∀ xq : ℚ, exceptIsOk (midpointCall vmin midpoint vmax xq) = false ↔
      (midpoint ≤ vmin ∨ vmax ≤ midpoint)) ∧
    (vmin < midpoint → midpoint < vmax →
      midpointCall vmin midpoint vmax vmin = .ok 0 ∧
      midpointCall vmin midpoint vmax midpoint = .ok (1/2) ∧
      midpointCall vmin midpoint vmax vmax = .ok 1) := by
  constructor
  · intro xq
    unfold midpointCall
    split_ifs with h
    · exact ⟨fun _ => h, fun _ => rfl⟩
    · simp only [exceptIsOk, Bool.true_eq_false, false_iff]
      exact h
  · intro h1 h2
    have herr : ¬ (midpoint ≤ vmin ∨ vmax ≤ midpoint) := by
      push_neg
      exact ⟨h1, h2⟩
    have hd1 : midpoint - vmin ≠ 0 := sub_ne_zero.mpr (ne_of_gt h1)
    have hd2 : vmax - midpoint ≠ 0 := sub_ne_zero.mpr (ne_of_gt h2)
    have hc1 : searchsortedL [vmin, midpoint, vmax] vmin = 0 := by
      simp [searchsortedL, List.countP_cons, not_lt.mpr h1.le,
        not_lt.mpr (h1.trans h2).le]
    have hc2 : searchsortedL [vmin, midpoint, vmax] midpoint = 1 := by
      simp [searchsortedL, List.countP_cons, h1, not_lt.mpr h2.le]
    have hc3 : searchsortedL [vmin, midpoint, vmax] vmax = 2 := by
      simp [searchsortedL, List.countP_cons, h2, h1.trans h2]
    have hi1 : npClampInd [vmin, midpoint, vmax] vmin = 1 := by
      simp [npClampInd, hc1]
    have hi2 : npClampInd [vmin, midpoint, vmax] midpoint = 1 := by
      simp [npClampInd, hc2]
    have hi3 : npClampInd [vmin, midpoint, vmax] vmax = 2 := by
      simp [npClampInd, hc3]
    refine ⟨?_, ?_, ?_⟩
    · unfold midpointCall
      rw [if_neg herr, npInterpSegments_eval _ _ _ _ hi1]
      norm_num
    · unfold midpointCall
      rw [if_neg herr, npInterpSegments_eval _ _ _ _ hi2]
      norm_num [List.getD]
      rw [div_self hd1]
    · unfold midpointCall
      rw [if_neg herr, npInterpSegments_eval _ _ _ _ hi3]
      norm_num [List.getD]
      rw [div_self hd2]
      norm_num

/-- C4 witness: the theorem applied to `vmin = 0`, `midpoint = 1`,
`vmax = 3`. -/
theorem midpointNorm_spec_witness :
    (0 : ℚ) < 1 ∧ (1 : ℚ) < 3 ∧
      midpointCall 0 1 3 0 = .ok 0 ∧
      midpointCall 0 1 3 1 = .ok (1/2) ∧
      midpointCall 0 1 3 3 = .ok 1 := by
  have H := (midpointNorm_spec 0 1 3).2 (by norm_num) (by norm_num)
  exact ⟨by norm_num, by norm_num, H.1, H.2.1, H.2.2⟩

theorem linspace01_length (n : ℕ) : (linspace01 n).length = n := by
  rw [linspace01, List.length_map, List.length_range]

theorem linspace01_getD (n i : ℕ) (h : i < n) :
    (linspace01 n).getD i 0 = (i : ℚ) / ((n : ℚ) - 1) := by
  have hlen : i < (linspace01 n).length := by
    rw [linspace01_length]
    exact h
  rw [List.getD_eq_getElem _ _ hlen]
  simp only [linspace01, List.getElem_map, List.getElem_range]

theorem getD_pairwise_lt (l : List ℚ) (hs : l.Pairwise (· < ·)) (i j : ℕ)
    (hij : i < j) (hj : j < l.length) : l.getD i 0 < l.getD j 0 := by
  rw [List.getD_eq_getElem _ _ (lt_trans hij hj), List.getD_eq_getElem _ _ hj]
  exact List.pairwise_iff_getElem.mp hs i j _ _ hij

/-- C3: for strictly increasing levels of length at least two and a query
inside the level range, `inverse(__call__(x)) = x` exactly. -/
theorem linSegNorm_roundtrip (levels : List ℚ) (hlen : 2 ≤ levels.length)
    (hs : levels.Pairwise (· < ·)) (x : ℚ)
    (hlo : levels.getD 0 0 ≤ x) (hhi : x ≤ levels.getD (levels.length - 1) 0) :
    linSegInverse levels (linSegCall levels x) = x := by
  have hn1 : (1 : ℚ) ≤ (levels.length : ℚ) - 1 := by
    have h2 : (2 : ℚ) ≤ (levels.length : ℚ) := by exact_mod_cast hlen
    linarith
  have hEpos : (0 : ℚ) < (levels.length : ℚ) - 1 := by linarith
  have hEne : (levels.length : ℚ) - 1 ≠ 0 := ne_of_gt hEpos
  have hcle : searchsortedL levels x ≤ levels.length :=
    searchsortedL_le_length levels x
  have hcn : searchsortedL levels x ≠ levels.length := by
    intro h
    have hl : levels.getD (levels.length - 1) 0 < x :=
      getD_lt_of_lt_searchsortedL levels hs x (levels.length - 1) (by omega)
    exact absurd hhi (not_le.mpr hl)
  have hy0 : (linspace01 levels.length).getD 0 0 = 0 := by
    rw [linspace01_getD _ _ (by omega)]
    simp
  by_cases hc0 : searchsortedL levels x = 0
  · -- x is exactly the smallest level
    have hxe : x = levels.getD 0 0 :=
      le_antisymm
        (not_lt.mp (not_getD_lt_of_searchsortedL_le levels hs x 0 (by omega) (by omega)))
        hlo
    have hclamp : npClampInd levels x = 1 := by
      simp [npClampInd, hc0]
    have h110 : (1 : ℕ) - 1 = 0 := rfl
    have hcall : linSegCall levels x = 0 := by
      rw [linSegCall, npInterpSegments_eval _ _ _ _ hclamp]
      rw [h110, hxe, sub_self, zero_div, zero_mul, zero_add, hy0]
    rw [hcall]
    have hzero : searchsortedL (linspace01 levels.length) 0 = 0 := by
      apply List.countP_eq_zero.mpr
      intro a ha
      simp only [linspace01, List.mem_map, List.mem_range] at ha
      obtain ⟨i, _, rfl⟩ := ha
      simp only [decide_eq_true_eq]
      exact not_lt.mpr (div_nonneg (by positivity) (le_of_lt hEpos))
    have hclamp2 : npClampInd (linspace01 levels.length) 0 = 1 := by
      simp [npClampInd, hzero]
    rw [linSegInverse, npInterpSegments_eval _ _ _ _ hclamp2]
    rw [h110, hy0, sub_self, zero_div, zero_mul, zero_add]
    exact hxe.symm
  · -- the generic segment case: searchsorted index c = k + 1 with k + 1 < n
    obtain ⟨k, hk⟩ : ∃ k, searchsortedL levels x = k + 1 :=
      ⟨searchsortedL levels x - 1, by omega⟩
    rw [hk] at hcn hcle
    have hkn : k + 1 < levels.length := by omega
    have hlow : levels.getD k 0 < x :=
      getD_lt_of_lt_searchsortedL levels hs x k (by omega)
    have hupp : x ≤ levels.getD (k + 1) 0 :=
      not_lt.mp (not_getD_lt_of_searchsortedL_le levels hs x (k + 1) (by omega) hkn)
    have hAB : levels.getD k 0 < levels.getD (k + 1) 0 :=
      getD_pairwise_lt levels hs k (k + 1) (by omega) hkn
    have hABne : levels.getD (k + 1) 0 - levels.getD k 0 ≠ 0 :=
      sub_ne_zero.mpr (ne_of_gt hAB)
    have hclamp : npClampInd levels x = k + 1 := by
      unfold npClampInd
      rw [hk, if_neg (by omega : ¬ (k + 1 = 0)), if_neg hcn]
    have hyk : (linspace01 levels.length).getD k 0 =
        (k : ℚ) / ((levels.length : ℚ) - 1) :=
      linspace01_getD _ _ (by omega)
    have hyk1 : (linspace01 levels.length).getD (k + 1) 0 =
        ((k : ℚ) + 1) / ((levels.length : ℚ) - 1) := by
      rw [linspace01_getD _ _ hkn]
      push_cast
      ring_nf
    set d : ℚ := (x - levels.getD k 0) / (levels.getD (k + 1) 0 - levels.getD k 0) with hd
    have hcall : linSegCall levels x =
        d * (((k : ℚ) + 1) / ((levels.length : ℚ) - 1) -
            (k : ℚ) / ((levels.length : ℚ) - 1)) +
          (k : ℚ) / ((levels.length : ℚ) - 1) := by
      rw [linSegCall, npInterpSegments_eval _ _ _ _ hclamp]
      simp only [Nat.add_sub_cancel]
      rw [hyk, hyk1]
    have hdpos : 0 < d := div_pos (by linarith) (by linarith)
    have hdle : d ≤ 1 := (div_le_one (by linarith)).mpr (by linarith)
    have hydiff : ((k : ℚ) + 1) / ((levels.length : ℚ) - 1) -
        (k : ℚ) / ((levels.length : ℚ) - 1) = 1 / ((levels.length : ℚ) - 1) := by
      field_simp
    have hyq_low : (k : ℚ) / ((levels.length : ℚ) - 1) < linSegCall levels x := by
      rw [hcall, hydiff]
      have hpos2 : 0 < d * (1 / ((levels.length : ℚ) - 1)) := by positivity
      linarith
    have hyq_high : linSegCall levels x ≤ ((k : ℚ) + 1) / ((levels.length : ℚ) - 1) := by
      rw [hcall, hydiff]
      have hexp : ((k : ℚ) + 1) / ((levels.length : ℚ) - 1) =
          (k : ℚ) / ((levels.length : ℚ) - 1) + 1 / ((levels.length : ℚ) - 1) := by
        field_simp
      have hEinv : 0 < 1 / ((levels.length : ℚ) - 1) := by positivity
      have hstep : d * (1 / ((levels.length : ℚ) - 1)) ≤ 1 / ((levels.length : ℚ) - 1) :=
        mul_le_of_le_one_left hEinv.le hdle
      linarith
    have hsorted2 : (linspace01 levels.length).Pairwise (· < ·) := by
      rw [List.pairwise_iff_getElem]
      intro i j hi hj hij
      simp only [linspace01, List.getElem_map, List.getElem_range, List.length_map,
        List.length_range] at hi hj ⊢
      exact div_lt_div_of_pos_right (by exact_mod_cast hij) hEpos
    have hsearch2 : searchsortedL (linspace01 levels.length) (linSegCall levels x) = k + 1 := by
      apply searchsortedL_eq _ hsorted2 _ _ (by rw [linspace01_length]; omega)
      · intro j hj
        have hjval : (linspace01 levels.length).getD j 0 =
            (j : ℚ) / ((levels.length : ℚ) - 1) :=
          linspace01_getD _ _ (by omega)
        rw [hjval]
        calc (j : ℚ) / ((levels.length : ℚ) - 1)
            ≤ (k : ℚ) / ((levels.length : ℚ) - 1) :=
              div_le_div_of_nonneg_right (by exact_mod_cast (by omega : j ≤ k)) hEpos.le
          _ < linSegCall levels x := hyq_low
      · intro j hj1 hj2
        rw [linspace01_length] at hj2
        have hjval : (linspace01 levels.length).getD j 0 =
            (j : ℚ) / ((levels.length : ℚ) - 1) :=
          linspace01_getD _ _ hj2
        rw [hjval, not_lt]
        calc linSegCall levels x
            ≤ ((k : ℚ) + 1) / ((levels.length : ℚ) - 1) := hyq_high
          _ ≤ (j : ℚ) / ((levels.length : ℚ) - 1) := by
              apply div_le_div_of_nonneg_right ?_ hEpos.le
              have : (k : ℚ) + 1 = ((k + 1 : ℕ) : ℚ) := by push_cast; ring
              rw [this]
              exact_mod_cast hj1
    have hclamp2 : npClampInd (linspace01 levels.length) (linSegCall levels x) = k + 1 := by
      unfold npClampInd
      rw [hsearch2, if_neg (by omega : ¬ (k + 1 = 0)),
        if_neg (by rw [linspace01_length]; omega)]
    rw [linSegInverse, npInterpSegments_eval _ _ _ _ hclamp2]
    simp only [Nat.add_sub_cancel]
    rw [hyk, hyk1, hcall, hydiff]
    have hrat : (d * (1 / ((levels.length : ℚ) - 1)) +
        (k : ℚ) / ((levels.length : ℚ) - 1) - (k : ℚ) / ((levels.length : ℚ) - 1)) /
          (1 / ((levels.length : ℚ) - 1)) = d := by
      field_simp
    rw [hrat, hd, div_mul_cancel₀ _ hABne]
    ring
/-- C3 witness: the round trip evaluated on the unevenly spaced levels
`[0, 1, 4]` at `x = 3`. -/
theorem linSegNorm_roundtrip_witness :
    2 ≤ ([0, 1, 4] : List ℚ).length ∧ ([0, 1, 4] : List ℚ).Pairwise (· < ·) ∧
      ([0, 1, 4] : List ℚ).getD 0 0 ≤ 3 ∧
      (3 : ℚ) ≤ ([0, 1, 4] : List ℚ).getD (([0, 1, 4] : List ℚ).length - 1) 0 ∧
      linSegInverse [0, 1, 4] (linSegCall [0, 1, 4] 3) = 3 := by
  have hpw : ([0, 1, 4] : List ℚ).Pairwise (· < ·) := by
    norm_num [List.pairwise_cons]
  refine ⟨by norm_num, hpw, by norm_num [List.getD], by norm_num [List.getD],
    linSegNorm_roundtrip [0, 1, 4] (by norm_num) hpw 3 (by norm_num [List.getD])
      (by norm_num [List.getD])⟩

/-- C5: `merge_cmaps` evaluated at the failing input.  Fewer than two
colormaps do raise, but merging two `ListedColormap`s with the default
scalar `ratios=1` raises as well: `ratios` has become the Python list
`[1]*len(_cmaps)`, the comparison `ratios==1` of a list with a scalar is
`False`, so `np.all(ratios==1)` is `False` and the guard raises instead of
concatenating the color lists as the claim (and the function docstring)
state. -/
theorem mergeCmaps_listed_default_ratios :
    mergeCmaps [] "merged" (.num 1) = .err "Need two or more input cmaps." ∧
    mergeCmaps [.listed "a" [(1, 0, 0)]] "merged" (.num 1) =
      .err "Need two or more input cmaps." ∧
    mergeCmaps [.listed "a" [(1, 0, 0)], .listed "b" [(0, 1, 0)]] "merged" (.num 1) =
      .err "Cannot assign different ratios when mering ListedColormaps." :=
  ⟨rfl, rfl, rfl⟩

/-- C6 counterexample: with an iterable `N` the function returns `(N, N)`
immediately, before the positive/negative compatibility check, so a call
with `positive=True` and `negative=True` does not raise. -/
theorem autoLevelsLocator_iterable_no_raise :
    autoLevelsLocatorHead (.iterN [1, 2]) true true (.ok ()) = .ret [1, 2] [1, 2] :=
  rfl

/-- C6 (amended): every call with iterable `N` returns `(N, N)` unchanged,
bypassing the locator heuristics; every call with a non-iterable `N` and
both `positive=True` and `negative=True` raises `ValueError` (either from
the norm constructor or from the explicit incompatibility check). -/
theorem autoLevelsLocator_spec :
    (∀ (l : List ℚ) (positive negative : Bool) (normStep : Except String Unit),
      autoLevelsLocatorHead (.iterN l) positive negative normStep = .ret l l) ∧
    (∀ (N : NArg) (normStep : Except String Unit), (∀ l, N ≠ .iterN l) →
      ∃ msg, autoLevelsLocatorHead N true true normStep = .err msg) := by
  constructor
  · intro l positive negative normStep
    rfl
  · intro N normStep hN
    match N with
    | .iterN l => exact absurd rfl (hN l)
    | .noneN =>
      match normStep with
      | .error e => exact ⟨e, rfl⟩
      | .ok _ => exact ⟨_, rfl⟩
    | .scalarN n =>
      match normStep with
      | .error e => exact ⟨e, rfl⟩
      | .ok _ => exact ⟨_, rfl⟩

/-- C6 witness: the amended theorem at `N = [0, 5]` (iterable) and at
`N = None` with `positive=negative=True`. -/
theorem autoLevelsLocator_spec_witness :
    autoLevelsLocatorHead (.iterN [0, 5]) false false (.ok ()) = .ret [0, 5] [0, 5] ∧
      ∃ msg, autoLevelsLocatorHead .noneN true true (.ok ()) = .err msg :=
  ⟨autoLevelsLocator_spec.1 [0, 5] false false (.ok ()),
    autoLevelsLocator_spec.2 .noneN (.ok ()) (fun l h => by cases h)⟩

/-- C7: `standardize_1d` raises `ValueError` for more than four positional
arguments; a single 1-D array `y` (wrapped method not `hist`, `boxplot` or
`violinplot`, no means/medians keywords) is plotted against
`x = np.arange(y.shape[0])`. -/
theorem standardize1d_spec :
    (∀ (name : String) (mm : Bool) (args : List (List ℚ)), 4 < args.length →
      standardize1d name mm args = .error "takes up to 4 positional arguments") ∧
    (∀ (y : List ℚ) (name : String),
      name ≠ "hist" → name ≠ "boxplot" → name ≠ "violinplot" →
      standardize1d name false [y] = .ok (some (arangeQ y.length), [y])) := by
  constructor
  · intro name mm args h
    match args with
    | [] => simp at h
    | [y] => simp at h
    | x :: y :: rest =>
      simp only [standardize1d]
      rw [if_neg (by simp only [List.length_cons] at h ⊢; omega)]
  · intro y name h1 h2 h3
    unfold standardize1d standardize1dCont
    simp [h1, h2, h3, axisLabelsTitle1d]

/-- C7 witness: five positional arguments raise; a single argument
`y = [5, 7]` is plotted against `arange(2) = [0, 1]`. -/
theorem standardize1d_spec_witness :
    standardize1d "plot" false [[], [], [], [], []] =
      .error "takes up to 4 positional arguments" ∧
    standardize1d "plot" false [[5, 7]] =
      .ok (some (arangeQ ([(5 : ℚ), 7] : List ℚ).length), [[5, 7]]) :=
  ⟨standardize1d_spec.1 "plot" false [[], [], [], [], []] (by norm_num),
    standardize1d_spec.2 [5, 7] "plot" (by decide) (by decide) (by decide)⟩

theorem char_toLower_idem (c : Char) : c.toLower.toLower = c.toLower := by
  have key : ∀ n : ℕ, Nat.isValidChar n → (Char.ofNat n).toNat = n := by
    intro n h
    unfold Char.ofNat
    rw [dif_pos h]
    rfl
  by_cases h : c.toNat ≥ 65 ∧ c.toNat ≤ 90
  · have h1 : c.toLower = Char.ofNat (c.toNat + 32) := by
      unfold Char.toLower
      exact if_pos h
    have hv : Nat.isValidChar (c.toNat + 32) := Or.inl (by omega)
    have ht : (Char.ofNat (c.toNat + 32)).toNat = c.toNat + 32 := key _ hv
    rw [h1]
    show (if (Char.ofNat (c.toNat + 32)).toNat ≥ 65 ∧ (Char.ofNat (c.toNat + 32)).toNat ≤ 90
      then Char.ofNat ((Char.ofNat (c.toNat + 32)).toNat + 32)
      else Char.ofNat (c.toNat + 32)) = Char.ofNat (c.toNat + 32)
    rw [ht, if_neg (by omega)]
  · have h1 : c.toLower = c := by
      unfold Char.toLower
      exact if_neg h
    rw [h1, h1]

theorem lowerKey_idem (s : List Char) : lowerKey (lowerKey s) = lowerKey s := by
  induction s with
  | nil => rfl
  | cons c rest ih =>
    show Char.toLower (Char.toLower c) :: lowerKey (lowerKey rest) =
      Char.toLower c :: lowerKey rest
    rw [char_toLower_idem, ih]

theorem lowerKey_append (a b : List Char) :
    lowerKey (a ++ b) = lowerKey a ++ lowerKey b :=
  List.map_append _ a b

theorem lowerKey_ur : lowerKey ['_', 'r'] = ['_', 'r'] := by
  decide

theorem endsUr_append_ur (k : List Char) : endsUr (k ++ ['_', 'r']) = true := by
  unfold endsUr
  have hlen : (k ++ ['_', 'r']).length = k.length + 2 := by
    simp
  rw [hlen]
  have hdrop : (k ++ ['_', 'r']).drop (k.length + 2 - 2) = ['_', 'r'] := by
    have h2 : k.length + 2 - 2 = k.length := by omega
    rw [h2]
    exact List.drop_left k _
  rw [hdrop]
  simp

theorem stripUr_append_ur (k : List Char) : stripUr (k ++ ['_', 'r']) = k := by
  unfold stripUr
  have hlen : (k ++ ['_', 'r']).length = k.length + 2 := by
    simp
  rw [hlen]
  have h2 : k.length + 2 - 2 = k.length := by omega
  rw [h2]
  exact List.take_left k _

/-- C8 counterexample: a key ending in a literal `_r` suffix can be stored
through `__setitem__`; on such a dictionary `d[k + "_r"]` returns the
reversed value but `d[k]` itself raises `KeyError` (the `_getitem` helper
strips the suffix again and looks up the bare stem), so the claimed
equation `d[k + "_r"] = d[k].reversed()` fails on a stored key. -/
theorem cmapDict_r_key_counterexample :
    cmapDictSet [] (.str ['f', 'o', 'o', '_', 'r']) (.base 0 true) =
      .ok [(['f', 'o', 'o', '_', 'r'], .base 0 true)] ∧
    cmapDictGet [] [(['f', 'o', 'o', '_', 'r'], CVal.base 0 true)]
        (['f', 'o', 'o', '_', 'r'] ++ ['_', 'r']) =
      .ok (.reversedOf (.base 0 true)) ∧
    cmapDictGet [] [(['f', 'o', 'o', '_', 'r'], CVal.base 0 true)]
        ['f', 'o', 'o', '_', 'r'] =
      .error "KeyError" :=
  ⟨rfl, rfl, rfl⟩

/-- C8 (amended): lookup is case-insensitive — for any string `K` whose
lowercasing is the (lowercase) stored key `k`, `d[K]` and `d[k]` take the
same path, errors included; and for a stored key `k` that does not itself
end in `_r` (the only kind `__init__` produces) whose value has a
`reversed()` method, `d[k + "_r"]` is exactly `d[k].reversed()`. -/
theorem cmapDictGet_spec (mirrors : List (List Char × List Char))
    (d : List (List Char × CVal)) (K k : List Char) (v : CVal) :
    (lowerKey K = k → lowerKey k = k →
      cmapDictGet mirrors d K = cmapDictGet mirrors d k) ∧
    (dlookup d k = some v → lowerKey k = k → endsUr k = false →
      ∀ w, pyReversed v = some w →
        cmapDictGet mirrors d (k ++ ['_', 'r']) = .ok w ∧
        cmapDictGet mirrors d k = .ok v) := by
  constructor
  · intro hK hk
    unfold cmapDictGet sanitizeKey
    rw [hK, hk]
  · intro hl hk hnr w hw
    have hlk : (dlookup d k).isSome := by
      rw [hl]
      rfl
    constructor
    · have hlow : lowerKey (k ++ ['_', 'r']) = k ++ ['_', 'r'] := by
        rw [lowerKey_append, lowerKey_ur, hk]
      have hsan : sanitizeKey mirrors d (k ++ ['_', 'r']) = k ++ ['_', 'r'] := by
        unfold sanitizeKey
        rw [hlow]
        simp only [endsUr_append_ur, stripUr_append_ur, if_true]
        rw [if_pos hlk]
      unfold cmapDictGet
      rw [hsan]
      simp [getItemRaw, endsUr_append_ur, stripUr_append_ur, hl, hw]
    · have hsan : sanitizeKey mirrors d k = k := by
        unfold sanitizeKey
        rw [hk]
        simp only [hnr, Bool.false_eq_true, if_false]
        rw [if_pos hlk]
      unfold cmapDictGet
      rw [hsan]
      simp [getItemRaw, hnr, hl]

/-- C8 witness: the amended theorem on the dictionary `{"vir": v}` with a
reversible value, looked up as `"VIR"`, `"vir"` and `"vir_r"`. -/
theorem cmapDictGet_spec_witness :
    cmapDictGet [] [(['v', 'i', 'r'], CVal.base 7 true)] ['V', 'I', 'R'] =
      cmapDictGet [] [(['v', 'i', 'r'], CVal.base 7 true)] ['v', 'i', 'r'] ∧
    cmapDictGet [] [(['v', 'i', 'r'], CVal.base 7 true)]
        (['v', 'i', 'r'] ++ ['_', 'r']) = .ok (.reversedOf (.base 7 true)) ∧
    cmapDictGet [] [(['v', 'i', 'r'], CVal.base 7 true)] ['v', 'i', 'r'] =
      .ok (.base 7 true) := by
  have H := cmapDictGet_spec [] [(['v', 'i', 'r'], CVal.base 7 true)]
    ['V', 'I', 'R'] ['v', 'i', 'r'] (CVal.base 7 true)
  exact ⟨H.1 (by decide) (by decide),
    (H.2 (by decide) (by decide) (by decide) _ rfl).1,
    (H.2 (by decide) (by decide) (by decide) _ rfl).2⟩

theorem lowercaseKeys_dinsert (d : List (List Char × CVal)) (k : List Char)
    (v : CVal) (hd : lowercaseKeys d) (hk : lowerKey k = k) :
    lowercaseKeys (dinsert d k v) := by
  unfold dinsert
  split_ifs with h
  · intro p hp
    rcases List.mem_map.mp hp with ⟨q, hq, rfl⟩
    by_cases hqk : q.1 = k
    · rw [if_pos hqk]
      exact hk
    · rw [if_neg hqk]
      exact hd q hq
  · intro p hp
    rcases List.mem_append.mp hp with h2 | h2
    · exact hd p h2
    · rw [List.mem_singleton.mp h2]
      exact hk

theorem cmapDictInitGo_lower (kvs : List (PyKey × CVal)) :
    ∀ acc d, lowercaseKeys acc → cmapDictInitGo acc kvs = .ok d →
      lowercaseKeys d := by
  induction kvs with
  | nil =>
    intro acc d hacc h
    injection h with h
    rw [← h]
    exact hacc
  | cons kv rest ih =>
    intro acc d hacc h
    match kv with
    | (.nonStr n, v) => exact absurd h (by simp [cmapDictInitGo])
    | (.str s, v) =>
      simp only [cmapDictInitGo] at h
      by_cases he : endsUr s = true
      · rw [if_pos he] at h
        exact ih acc d hacc h
      · rw [if_neg he] at h
        exact ih _ d (lowercaseKeys_dinsert acc (lowerKey s) v hacc (lowerKey_idem s)) h

theorem cmapDictInitGo_filter (kvs : List (PyKey × CVal)) :
    ∀ acc, cmapDictInitGo acc kvs =
      cmapDictInitGo acc (kvs.filter (fun kv =>
        match kv.1 with
        | .str s => !endsUr s
        | .nonStr _ => true)) := by
  induction kvs with
  | nil =>
    intro acc
    rfl
  | cons kv rest ih =>
    intro acc
    match kv with
    | (.nonStr n, v) =>
      simp [cmapDictInitGo, List.filter_cons]
    | (.str s, v) =>
      rw [List.filter_cons]
      by_cases he : endsUr s = true
      · simp only [he, Bool.not_true, Bool.false_eq_true, if_false]
        simp only [cmapDictInitGo, if_pos he]
        exact ih acc
      · have he2 : endsUr s = false := by
          rw [Bool.not_eq_true] at he
          exact he
        simp only [he2, Bool.not_false, if_true]
        simp only [cmapDictInitGo, if_neg he]
        exact ih _

/-- C9: every key stored in a `_CmapDict` is a lowercase string; this
holds after `__init__` (which additionally skips keys with a literal `_r`
suffix, so initializing is the same as initializing from the input with
those pairs filtered out) and is preserved by `__setitem__`, which
lowercases the key and raises `KeyError` for every non-string key. -/
theorem cmapDict_lowercase_invariant :
    (∀ (kvs : List (PyKey × CVal)) (d : List (List Char × CVal)),
      cmapDictInit kvs = .ok d → lowercaseKeys d) ∧
    (∀ kvs : List (PyKey × CVal),
      cmapDictInit kvs = cmapDictInit (kvs.filter (fun kv =>
        match kv.1 with
        | .str s => !endsUr s
        | .nonStr _ => true))) ∧
    (∀ (d : List (List Char × CVal)) (k : PyKey) (v : CVal)
        (d' : List (List Char × CVal)),
      lowercaseKeys d → cmapDictSet d k v = .ok d' → lowercaseKeys d') ∧
    (∀ (d : List (List Char × CVal)) (n : ℕ) (v : CVal),
      cmapDictSet d (.nonStr n) v = .error "KeyError: Invalid key. Must be string.") := by
  refine ⟨?_, ?_, ?_, ?_⟩
  · intro kvs d h
    exact cmapDictInitGo_lower kvs [] d (fun p hp => absurd hp (List.not_mem_nil p)) h
  · intro kvs
    exact cmapDictInitGo_filter kvs []
  · intro d k v d' hd h
    match k with
    | .nonStr n => exact absurd h (by simp [cmapDictSet])
    | .str s =>
      injection h with h
      rw [← h]
      exact lowercaseKeys_dinsert d (lowerKey s) v hd (lowerKey_idem s)
  · intro d n v
    rfl

/-- C9 witness: initialization from `{"A": v0, "b_r": v1}` (which stores
only the lowercased `"a"`), a `__setitem__` with key `"A"`, and a
`__setitem__` with a non-string key. -/
theorem cmapDict_lowercase_invariant_witness :
    (∃ d, cmapDictInit [(.str ['A'], CVal.base 0 false),
        (.str ['b', '_', 'r'], CVal.base 1 false)] = .ok d ∧ lowercaseKeys d) ∧
    cmapDictInit [(.str ['A'], CVal.base 0 false),
        (.str ['b', '_', 'r'], CVal.base 1 false)] =
      cmapDictInit ([(.str ['A'], CVal.base 0 false),
        (.str ['b', '_', 'r'], CVal.base 1 false)].filter (fun kv =>
          match kv.1 with
          | .str s => !endsUr s
          | .nonStr _ => true)) ∧
    (∃ d', cmapDictSet [] (.str ['A']) (CVal.base 0 false) = .ok d' ∧
      lowercaseKeys d') ∧
    cmapDictSet [] (.nonStr 3) (CVal.base 0 false) =
      .error "KeyError: Invalid key. Must be string." := by
  have H := cmapDict_lowercase_invariant
  exact ⟨⟨_, rfl, H.1 [(.str ['A'], CVal.base 0 false),
      (.str ['b', '_', 'r'], CVal.base 1 false)] _ rfl⟩, H.2.1 _,
    ⟨_, rfl, H.2.2.1 [] (.str ['A']) (CVal.base 0 false) _
      (fun p hp => absurd hp (List.not_mem_nil p)) rfl⟩,
    H.2.2.2 [] 3 (CVal.base 0 false)⟩

theorem clipChannel_bounds (mask : Bool) (v : ℚ) :
    0 ≤ clipChannel mask (1/5) v ∧ clipChannel mask (1/5) v ≤ 1 := by
  unfold clipChannel
  by_cases hm : mask = true
  · rw [if_pos hm]
    by_cases h : v < 0 ∨ 1 < v
    · rw [if_pos h]
      norm_num
    · rw [if_neg h]
      exact ⟨not_lt.mp (not_or.mp h).1, not_lt.mp (not_or.mp h).2⟩
  · rw [if_neg hm]
    by_cases h1 : v < 0
    · rw [if_pos h1]
      norm_num
    · rw [if_neg h1]
      by_cases h2 : 1 < v
      · rw [if_pos h2]
        norm_num
      · rw [if_neg h2]
        exact ⟨not_lt.mp h1, not_lt.mp h2⟩

theorem clipChannel_id (mask : Bool) (gray v : ℚ) (h0 : 0 ≤ v) (h1 : v ≤ 1) :
    clipChannel mask gray v = v := by
  unfold clipChannel
  by_cases hm : mask = true
  · rw [if_pos hm, if_neg (by push_neg; exact ⟨h0, h1⟩)]
  · rw [if_neg hm, if_neg (not_lt.mpr h0), if_neg (not_lt.mpr h1)]

/-- C10: with the default `gray = 0.2`, every channel of the output of
`clip_colors` lies in `[0, 1]` in both modes, and every channel already in
`[0, 1]` is returned unchanged (entrywise, at its own position). -/
theorem clip_colors_spec (colors : List (ℚ × ℚ × ℚ)) (mask : Bool) :
    (∀ c ∈ clip_colors colors mask (1/5),
      (0 ≤ c.1 ∧ c.1 ≤ 1) ∧ (0 ≤ c.2.1 ∧ c.2.1 ≤ 1) ∧ (0 ≤ c.2.2 ∧ c.2.2 ≤ 1)) ∧
    (∀ i, i < colors.length →
      (0 ≤ (colors.getD i (0, 0, 0)).1 → (colors.getD i (0, 0, 0)).1 ≤ 1 →
        ((clip_colors colors mask (1/5)).getD i (0, 0, 0)).1 =
          (colors.getD i (0, 0, 0)).1) ∧
      (0 ≤ (colors.getD i (0, 0, 0)).2.1 → (colors.getD i (0, 0, 0)).2.1 ≤ 1 →
        ((clip_colors colors mask (1/5)).getD i (0, 0, 0)).2.1 =
          (colors.getD i (0, 0, 0)).2.1) ∧
      (0 ≤ (colors.getD i (0, 0, 0)).2.2 → (colors.getD i (0, 0, 0)).2.2 ≤ 1 →
        ((clip_colors colors mask (1/5)).getD i (0, 0, 0)).2.2 =
          (colors.getD i (0, 0, 0)).2.2)) := by
  constructor
  · intro c hc
    rcases List.mem_map.mp hc with ⟨q, hq, rfl⟩
    exact ⟨clipChannel_bounds mask q.1, clipChannel_bounds mask q.2.1,
      clipChannel_bounds mask q.2.2⟩
  · intro i hi
    have hlen : i < (clip_colors colors mask (1/5)).length := by
      rw [clip_colors, List.length_map]
      exact hi
    have hval : (clip_colors colors mask (1/5)).getD i (0, 0, 0) =
        (clipChannel mask (1/5) (colors.getD i (0, 0, 0)).1,
         clipChannel mask (1/5) (colors.getD i (0, 0, 0)).2.1,
         clipChannel mask (1/5) (colors.getD i (0, 0, 0)).2.2) := by
      rw [List.getD_eq_getElem _ _ hlen]
      rw [List.getD_eq_getElem colors (0, 0, 0) hi]
      simp [clip_colors]
    rw [hval]
    exact ⟨fun h0 h1 => clipChannel_id _ _ _ h0 h1,
      fun h0 h1 => clipChannel_id _ _ _ h0 h1,
      fun h0 h1 => clipChannel_id _ _ _ h0 h1⟩

/-- C10 witness: the theorem on the single color `(2, 1/2, -1)` in mask
mode: the output channels `(1/5, 1/2, 1/5)` lie in `[0, 1]` and the
in-range middle channel is unchanged. -/
theorem clip_colors_spec_witness :
    ((0 ≤ (1 : ℚ)/5 ∧ (1 : ℚ)/5 ≤ 1) ∧ (0 ≤ (1 : ℚ)/2 ∧ (1 : ℚ)/2 ≤ 1) ∧
      (0 ≤ (1 : ℚ)/5 ∧ (1 : ℚ)/5 ≤ 1)) ∧
    ((clip_colors [((2 : ℚ), 1/2, -1)] true (1/5)).getD 0 (0, 0, 0)).2.1 =
      (([((2 : ℚ), 1/2, -1)] : List (ℚ × ℚ × ℚ)).getD 0 (0, 0, 0)).2.1 := by
  have H := clip_colors_spec [((2 : ℚ), 1/2, -1)] true
  refine ⟨H.1 ((1 : ℚ)/5, (1 : ℚ)/2, (1 : ℚ)/5) ?_,
    (H.2 0 (by norm_num)).2.1 (by norm_num [List.getD]) (by norm_num [List.getD])⟩
  show ((1 : ℚ)/5, (1 : ℚ)/2, (1 : ℚ)/5) ∈ clip_colors [((2 : ℚ), 1/2, -1)] true (1/5)
  norm_num [clip_colors, clipChannel]

end Proplot
